import Mathlib

/-!
Verification of the cost-tracking engine in `tracker.py`.

This file shallowly embeds the engine's data model and algorithms:
pricing resolution (`price_for`), token estimation (`estimate_tokens`),
authoritative-usage extraction (`parse_real_usage`), before/after event
pairing, and the two cost computations inside `analyse` (authoritative
and degraded), and proves the behavioural properties stated over them.

Modelling conventions:
* Python floats (timestamps, prices, costs) are embedded as exact
  rationals `ℚ`; token counts as `ℕ`.
* Python dicts used as key→value tables are embedded as association
  lists (`List (String × _)`, first binding wins, matching dict lookup
  since dict keys are unique).
* A JSONL transcript is embedded as a list of already-decoded records;
  a record with `valid := false` stands for a line that fails JSON
  decoding and is skipped.  An unreadable transcript file is modelled
  as the transcript being absent (`none`), which has the same effect
  in the code (the exception handler returns `None`).
* Presentation-only aggregates of `analyse` (file read counts, bash
  command frequency, suggestions, report formatting) are not modelled;
  no property under proof mentions them.
-/

namespace CostTracker

/-- A per-model rate card: `{"input": .., "output": .., ...}` in
`pricing.json`.  The two cache fields may be absent (the code reads
them with `pricing.get(...)`), so they are `Option`. -/
structure RateCard where
  input : ℚ
  output : ℚ
  cache_creation : Option ℚ
  cache_read : Option ℚ
deriving DecidableEq, Repr

/-- `FALLBACK_PRICING = {"input": 3.00, "output": 15.00,
"cache_creation": 3.75, "cache_read": 0.30}`. -/
def FALLBACK_PRICING : RateCard :=
  { input := 3, output := 15, cache_creation := some (15 / 4), cache_read := some (3 / 10) }

/-- `CONTEXT_CAP = 200_000`. -/
def CONTEXT_CAP : ℕ := 200000

/-- `MAX_RESPONSE_TOKENS = 50_000`. -/
def MAX_RESPONSE_TOKENS : ℕ := 50000

/-- The fixed `TOOL_CATEGORIES` table. -/
def TOOL_CATEGORIES : List (String × String) :=
  [("Read", "Reading files"), ("Write", "Writing files"),
   ("Edit", "Editing files"), ("MultiEdit", "Editing files"),
   ("Bash", "Running commands"), ("Task", "Delegating to sub-task"),
   ("Grep", "Searching code"), ("Glob", "Searching code"),
   ("WebFetch", "Browsing web"), ("WebSearch", "Browsing web")]

/-- Python `str.startswith`, as a structural recursion on the
character lists (kernel-reducible, unlike `String.isPrefixOf`). -/
def startsWith (p s : String) : Bool :=
  p.data.isPrefixOf s.data

/-- `category_for`: `mcp__` prefix → "MCP tool call", else table lookup
with default "Other". -/
def category_for (tool_name : String) : String :=
  if startsWith "mcp__" tool_name then "MCP tool call"
  else ((TOOL_CATEGORIES.lookup tool_name).getD "Other")

/-- `estimate_tokens(text)` = `min(len(str(text)) // 4, MAX_RESPONSE_TOKENS)`.
The argument is the string form of the Python value. -/
def estimate_tokens (text : String) : ℕ :=
  min (text.length / 4) MAX_RESPONSE_TOKENS

/-! ## Pricing resolver (`price_for`) -/

/-- Python `s.split("-")` on the character list: splits at every `'-'`,
keeping empty segments, and yields `[""]` on the empty string. -/
def split_dash : List Char → List (List Char)
  | [] => [[]]
  | c :: rest =>
    if c = '-' then [] :: split_dash rest
    else
      match split_dash rest with
      | [] => [[c]]
      | p :: ps => (c :: p) :: ps

/-- Python `"-".join(parts)` on character lists. -/
def join_dash : List (List Char) → List Char
  | [] => []
  | [p] => p
  | p :: ps => p ++ '-' :: join_dash ps

/-- The prefix candidates tried by the loop
`for end in range(len(parts), 2, -1): candidate = "-".join(parts[:end])`:
dash-joined prefixes of the split identifier, from the full length down
to 3 segments. -/
def prefix_candidates (model : String) : List String :=
  let parts := split_dash model.data
  ((List.range' 3 (parts.length - 2)).reverse).map
    (fun e => String.mk (join_dash (parts.take e)))

/-- The prefix-search stage of `price_for`: first candidate present in
the models table, if any. -/
def prefix_price (model : String) (models_dict : List (String × RateCard)) :
    Option RateCard :=
  (prefix_candidates model).findSome? (fun c => models_dict.lookup c)

/-- `price_for(model, models_dict, aliases_dict)`.  Stage order as in
the code: exact lookup; alias lookup guarded by Python truthiness of
the target (`if resolved and resolved in models_dict`); prefix search;
hardcoded fallback. -/
def price_for (model : String) (models_dict : List (String × RateCard))
    (aliases_dict : List (String × String)) : RateCard :=
  match models_dict.lookup model with
  | some card => card
  | none =>
    match (aliases_dict.lookup model).bind
        (fun r => if r = "" then none else models_dict.lookup r) with
    | some card => card
    | none =>
      match prefix_price model models_dict with
      | some card => card
      | none => FALLBACK_PRICING

/-! ## Authoritative usage extractor (`parse_real_usage`) -/

/-- One line of a Claude Code JSONL transcript, already decoded.
`valid := false` stands for a line that fails `json.loads` (skipped).
`type` is `d.get("type")`; `hasUsage` is `"usage" in msg`; `requestId`
is `d.get("requestId")` (absent → `none`); the token fields are
`usage.get(..., 0)`; `timestamp` is `d.get("timestamp", "")` and
`model` is `msg.get("model", "")`. -/
structure TLine where
  valid : Bool
  type : String
  hasUsage : Bool
  requestId : Option String
  timestamp : String
  model : String
  input_tokens : ℕ
  output_tokens : ℕ
  cache_creation_input_tokens : ℕ
  cache_read_input_tokens : ℕ
deriving DecidableEq, Repr

/-- One retained API-call record (the dict appended to `api_calls`). -/
structure Call where
  ts : String
  model : String
  input : ℕ
  output : ℕ
  cache_create : ℕ
  cache_read : ℕ
  total_ctx : ℕ
deriving DecidableEq, Repr

/-- The record built from a retained transcript line
(`total_ctx = inp + cc + cr`). -/
def mkCall (d : TLine) : Call :=
  { ts := d.timestamp, model := d.model, input := d.input_tokens,
    output := d.output_tokens, cache_create := d.cache_creation_input_tokens,
    cache_read := d.cache_read_input_tokens,
    total_ctx := d.input_tokens + d.cache_creation_input_tokens
      + d.cache_read_input_tokens }

/-- The line-retention test of `parse_real_usage`: decodes, is an
assistant record, carries usage, and its `requestId` (possibly absent,
i.e. Python `None`) was not seen before.  `seen` models the
`seen_req` set. -/
def lineKept (seen : List (Option String)) (d : TLine) : Bool :=
  d.valid && d.type == "assistant" && d.hasUsage && !(seen.contains d.requestId)

/-- One loop iteration of `parse_real_usage`: a retained line adds its
`requestId` to `seen_req` and appends a record; any other line leaves
the state unchanged. -/
def puStep (s : List (Option String) × List Call) (d : TLine) :
    List (Option String) × List Call :=
  if lineKept s.1 d then (d.requestId :: s.1, s.2 ++ [mkCall d]) else s

/-- The retained records of a transcript, in file order. -/
def retainedCalls (lines : List TLine) : List Call :=
  (lines.foldl puStep ([], [])).2

/-- The usage summary returned by `parse_real_usage` on success. -/
structure Usage where
  input_tokens : ℕ
  output_tokens : ℕ
  cache_creation_tokens : ℕ
  cache_read_tokens : ℕ
  api_calls : ℕ
  model : String
  context_by_turn : List (String × ℕ)
deriving DecidableEq, Repr

/-- `next((e["model"] for e in reversed(api_calls) if e["model"]), "")`:
the most recent non-empty model name. -/
def lastModel (calls : List Call) : String :=
  (((calls.reverse).map Call.model).filter (fun m => m != "")).headD ""

/-- `parse_real_usage`: fold the dedup step over the transcript lines;
`None` when no record is retained.  (A read error is modelled at the
caller as an absent transcript: the `except` clause also yields
`None`.) -/
def parse_real_usage (lines : List TLine) : Option Usage :=
  let calls := retainedCalls lines
  if calls.isEmpty then none
  else some
    { input_tokens := (calls.map Call.input).sum,
      output_tokens := (calls.map Call.output).sum,
      cache_creation_tokens := (calls.map Call.cache_create).sum,
      cache_read_tokens := (calls.map Call.cache_read).sum,
      api_calls := calls.length,
      model := lastModel calls,
      context_by_turn := calls.map (fun c => (c.ts, c.total_ctx)) }

/-! ## Instrumentation events and timing pairs -/

/-- One hook event of the per-session log.  `type` is `"pre"` or
`"post"`; the token estimates default to 0 when absent
(`e.get(..., 0)`); `model` is the optional field a `post` event may
carry. -/
structure Event where
  type : String
  ts : ℚ
  tool : String
  input_tokens : ℕ
  response_tokens : ℕ
  model : Option String
  file_path : Option String
  command : Option String
deriving DecidableEq, Repr

/-- Python `a or b` on optional strings (`None` and `""` are falsy). -/
def orTruthy (a b : Option String) : Option String :=
  match a with
  | some s => if s = "" then b else a
  | none => b

/-- One paired invocation (the dict appended to `paired`).
`matched_index` records which `post` event (by its index in the post
list) was consumed — the Python dict keeps the matched event only
implicitly through `response_tokens`/`file_path`; the index is carried
here so that non-reuse of `after` events is a statable property. -/
structure Paired where
  tool : String
  category : String
  elapsed_s : ℚ
  input_tokens : ℕ
  response_tokens : ℕ
  file_path : Option String
  command : Option String
  ts : ℚ
  matched_index : Option ℕ
deriving DecidableEq, Repr

/-- The candidate test of the pairing loop: same tool and strictly
later timestamp (`c.get("ts", 0) > pre.get("ts", 0)`). -/
def matchCond (pre c : Event) : Bool :=
  c.tool == pre.tool && pre.ts < c.ts

/-- `next((c for c in candidates if ...), None)` followed by
`candidates.remove(matched)`, in one pass over the pool of unconsumed
indexed `post` events.  The code keeps per-tool pools
(`post_by_tool`); since those pools are the tool-filtered sublists of
the post list in original order and the candidate test already
requires equal tools, scanning the single pool is the same search and
the same removal. -/
def extractMatch (pre : Event) :
    List (ℕ × Event) → Option ((ℕ × Event) × List (ℕ × Event))
  | [] => none
  | x :: rest =>
    if matchCond pre x.2 then some (x, rest)
    else
      match extractMatch pre rest with
      | some (m, rest') => some (m, x :: rest')
      | none => none

/-- The dict appended to `paired` for one `pre` event. -/
def mkPaired (pre : Event) (elapsed : ℚ) (resp : ℕ) (mfile : Option String)
    (idx : Option ℕ) : Paired :=
  { tool := pre.tool, category := category_for pre.tool, elapsed_s := elapsed,
    input_tokens := pre.input_tokens, response_tokens := resp,
    file_path := orTruthy pre.file_path mfile, command := pre.command,
    ts := pre.ts, matched_index := idx }

/-- The pairing loop: process `pre` events in order; a match yields
elapsed `matched.ts - pre.ts` and consumes the `post` event, no match
yields elapsed 0 and the empty match (`matched = {}`, whose
`response_tokens`/`file_path` read as 0/`None`). -/
def pairEvents : List Event → List (ℕ × Event) → List Paired × List (ℕ × Event)
  | [], pool => ([], pool)
  | pre :: rest, pool =>
    match extractMatch pre pool with
    | some ((i, m), pool') =>
      let r := pairEvents rest pool'
      (mkPaired pre (m.ts - pre.ts) m.response_tokens m.file_path (some i) :: r.1,
       r.2)
    | none =>
      let r := pairEvents rest pool
      (mkPaired pre 0 0 none none :: r.1, r.2)

/-- The `paired` list computed by `analyse` (lines 190-221): partition
the events into `pre` and `post` streams and run the pairing loop. -/
def pairedOf (events : List Event) : List Paired :=
  (pairEvents (events.filter (fun e => e.type == "pre"))
    ((events.filter (fun e => e.type == "post")).enum)).1

/-! ## Cost estimator (`analyse`) -/

/-- Authoritative-mode total cost (lines 255-260): the four token
classes priced per million, cache rates defaulting to `input * 1.25`
and `input * 0.1` when the card lacks them. -/
def authoritative_cost (u : Usage) (pricing : RateCard) : ℚ :=
  ((u.input_tokens : ℚ) * pricing.input
    + (u.output_tokens : ℚ) * pricing.output
    + (u.cache_creation_tokens : ℚ) * (pricing.cache_creation.getD (pricing.input * (5 / 4)))
    + (u.cache_read_tokens : ℚ) * (pricing.cache_read.getD (pricing.input * (1 / 10))))
    / 1000000

/-- `sorted(paired, key=lambda x: x["ts"])` — Python's stable sort. -/
def sortByTs (l : List Paired) : List Paired :=
  l.insertionSort (fun a b => a.ts ≤ b.ts)

/-- The degraded-mode loop (lines 283-292), carrying the enumeration
index `i` and the capped running context counter; returns the context
timeline (token values) and the accumulated estimated cost.  `ip`/`op`
are `input_price`/`output_price` (already divided by 1,000,000); `T`
is `turn_count`. -/
def degradedLoop (ip op : ℚ) (cap T : ℕ) :
    List Paired → ℕ → ℕ → List ℕ × ℚ
  | [], _, _ => ([], 0)
  | ev :: rest, i, cum =>
    let added := ev.input_tokens + ev.response_tokens
    let cum' := min (cum + added) cap
    let turns_remaining := T - i
    let turn_cost := (ev.response_tokens : ℚ) * ip * (turns_remaining : ℚ)
      + (ev.response_tokens : ℚ) * op
    let r := degradedLoop ip op cap T rest (i + 1) cum'
    (cum' :: r.1, turn_cost + r.2)

/-- `max((c["tokens"] for c in context_timeline), default=0)`. -/
def peakOf (tl : List ℕ) : ℕ := tl.foldr max 0

/-- The whole degraded-mode computation (lines 273-292): sort the
paired invocations by timestamp, then run the loop with
`turn_count = len(sorted_events)`, index 0 and empty context. -/
def degraded_result (paired : List Paired) (pricing : RateCard) (cap : ℕ) :
    List ℕ × ℚ :=
  let sorted_events := sortByTs paired
  degradedLoop (pricing.input / 1000000) (pricing.output / 1000000) cap
    sorted_events.length sorted_events 0 0

/-- `next((e.get("model") for e in events if e.get("model")),
"claude-sonnet-4-6")`: first truthy model field over all events. -/
def firstEventModel (events : List Event) : String :=
  (events.filterMap
    (fun e => e.model.bind (fun m => if m = "" then none else some m))).headD
    "claude-sonnet-4-6"

/-- The fields of the `analyse` result dict that the verified
properties mention.  `context_timeline` keeps the token values of the
timeline entries, in order (their `ts` companions are presentation
data).  Presentation-only fields (`file_map`, `bash_commands`,
`suggestions`, `duration_s`, `time_by_category`, `total_timed`) are
not modelled. -/
structure Analysis where
  total_cost : ℚ
  peak_tokens : ℕ
  tool_calls : ℕ
  api_calls : ℕ
  context_timeline : List ℕ
  model : String
  using_real_data : Bool
  pricing : RateCard
  inp_tok : ℕ
  out_tok : ℕ
  cc_tok : ℕ
  cr_tok : ℕ
deriving DecidableEq, Repr

/-- `analyse(events, pricing_models, pricing_aliases, context_cap,
jsonl_path)`.  `transcript = none` models an absent (or unreadable)
transcript file; `analyse` returns `none` for the empty event list
(`if not events: return {}`). -/
def analyse (events : List Event) (pricing_models : List (String × RateCard))
    (pricing_aliases : List (String × String)) (context_cap : ℕ)
    (transcript : Option (List TLine)) : Option Analysis :=
  if events.isEmpty then none
  else
    let paired := pairedOf events
    match transcript.bind parse_real_usage with
    | some u =>
      let model := if u.model = "" then "claude-sonnet-4-6" else u.model
      let pricing := price_for model pricing_models pricing_aliases
      let tl := u.context_by_turn.map Prod.snd
      some { total_cost := authoritative_cost u pricing,
             peak_tokens := peakOf tl,
             tool_calls := paired.length,
             api_calls := u.api_calls,
             context_timeline := tl,
             model := model,
             using_real_data := true,
             pricing := pricing,
             inp_tok := u.input_tokens, out_tok := u.output_tokens,
             cc_tok := u.cache_creation_tokens, cr_tok := u.cache_read_tokens }
    | none =>
      let model := firstEventModel events
      let pricing := price_for model pricing_models pricing_aliases
      let r := degraded_result paired pricing context_cap
      some { total_cost := r.2,
             peak_tokens := peakOf r.1,
             tool_calls := paired.length,
             api_calls := paired.length,
             context_timeline := r.1,
             model := model,
             using_real_data := false,
             pricing := pricing,
             inp_tok := 0, out_tok := 0, cc_tok := 0, cr_tok := 0 }

/-! ## Concrete sample data (used by the closed instances) -/

/-- A transcript line carrying a request identifier. -/
def dupLine : TLine :=
  { valid := true, type := "assistant", hasUsage := true,
    requestId := some "req-1", timestamp := "t0", model := "claude-x",
    input_tokens := 7, output_tokens := 8,
    cache_creation_input_tokens := 9, cache_read_input_tokens := 10 }

/-- A transcript line with no request identifier. -/
def noIdLine1 : TLine :=
  { valid := true, type := "assistant", hasUsage := true,
    requestId := none, timestamp := "t1", model := "claude-x",
    input_tokens := 100, output_tokens := 5,
    cache_creation_input_tokens := 0, cache_read_input_tokens := 0 }

/-- A second identifier-less transcript line with different figures. -/
def noIdLine2 : TLine :=
  { valid := true, type := "assistant", hasUsage := true,
    requestId := none, timestamp := "t2", model := "claude-x",
    input_tokens := 999, output_tokens := 999,
    cache_creation_input_tokens := 999, cache_read_input_tokens := 999 }

/-- A concrete `pre` hook event (Read at t=0, input estimate 100). -/
def sample_pre : Event :=
  { type := "pre", ts := 0, tool := "Read", input_tokens := 100,
    response_tokens := 0, model := none, file_path := some "/tmp/notes.txt",
    command := none }

/-- The matching `post` hook event (Read at t=2, output estimate 50). -/
def sample_post : Event :=
  { type := "post", ts := 2, tool := "Read", input_tokens := 0,
    response_tokens := 50, model := none, file_path := none, command := none }

/-- A `pre` event for tool "A" at t=0 (counterexample data). -/
def preA : Event :=
  { type := "pre", ts := 0, tool := "A", input_tokens := 1,
    response_tokens := 0, model := none, file_path := none, command := none }

/-- An "A" `post` event at t=10, first in file order. -/
def postA_late : Event :=
  { type := "post", ts := 10, tool := "A", input_tokens := 0,
    response_tokens := 3, model := none, file_path := none, command := none }

/-- An "A" `post` event at t=5, second in file order but earlier by
timestamp. -/
def postA_early : Event :=
  { type := "post", ts := 5, tool := "A", input_tokens := 0,
    response_tokens := 4, model := none, file_path := none, command := none }

/-- Spec-side operation for the monotonicity property: increase the
estimated response size of the invocation at position `i` by `δ`,
holding everything else fixed. -/
def bumpResponse : List Paired → ℕ → ℕ → List Paired
  | [], _, _ => []
  | p :: rest, 0, δ => { p with response_tokens := p.response_tokens + δ } :: rest
  | p :: rest, i + 1, δ => p :: bumpResponse rest i δ

/-- A non-negative rate card: the two mandatory class rates are
non-negative and so is any present cache rate. -/
def NonnegCard (c : RateCard) : Prop :=
  0 ≤ c.input ∧ 0 ≤ c.output ∧
    (∀ x ∈ c.cache_creation, 0 ≤ x) ∧ (∀ x ∈ c.cache_read, 0 ≤ x)

/-- Invocation-wise comparison used for monotonicity: same timestamp
and input estimate, response estimate possibly larger on the right. -/
def RespLe (p q : Paired) : Prop :=
  p.ts = q.ts ∧ p.input_tokens = q.input_tokens ∧
    p.response_tokens ≤ q.response_tokens

/-- A transcript line that is not an assistant record. -/
def nonAsstLine : TLine :=
  { valid := true, type := "user", hasUsage := false, requestId := none,
    timestamp := "", model := "", input_tokens := 0, output_tokens := 0,
    cache_creation_input_tokens := 0, cache_read_input_tokens := 0 }

/-! ## Theorems -/

/-- C10: `estimate_tokens` equals the string length integer-divided by
4 capped at 50,000, hence every estimated size it produces (the
`input_tokens` of a `pre` event and the `response_tokens` of a `post`
event are exactly its outputs) lies between 0 and 50,000 inclusive. -/
theorem estimate_tokens_capped (text : String) :
    estimate_tokens text = min (text.length / 4) 50000 ∧
    0 ≤ estimate_tokens text ∧ estimate_tokens text ≤ 50000 :=
  ⟨rfl, Nat.zero_le _, min_le_right _ _⟩

/-- C3 (counterexample): with rate-card table `{"": c}` and alias table
`{"m": ""}`, the identifier `"m"` has no exact entry, its alias target
`""` does exist in the rate-card table, yet `price_for` does not return
that target's card (it returns the fallback): the Python guard
`if resolved and resolved in models_dict` rejects the empty-string
target as falsy, so the claim's alias clause, which only requires the
target to exist in the rate-card table, is false as stated. -/
theorem price_for_alias_empty_target_cex :
    List.lookup "m" ([("m", "")] : List (String × String)) = some "" ∧
    List.lookup "" [("", RateCard.mk 1 1 none none)] = some (RateCard.mk 1 1 none none) ∧
    List.lookup "m" [("", RateCard.mk 1 1 none none)] = none ∧
    price_for "m" [("", RateCard.mk 1 1 none none)] [("m", "")] ≠ RateCard.mk 1 1 none none := by
  refine ⟨rfl, rfl, rfl, ?_⟩
  have h : price_for "m" [("", RateCard.mk 1 1 none none)] [("m", "")] =
      FALLBACK_PRICING := rfl
  rw [h]
  simp only [FALLBACK_PRICING, ne_eq, RateCard.mk.injEq, not_and]
  intro h3
  norm_num at h3

/-- C3 (amended): pricing resolution precedence, first match wins:
(1) an exact rate-card entry for the identifier; (2) the identifier's
alias-table target, when that target is a non-empty string and exists
in the rate-card table; (3) the first (i.e. longest, `prefix_candidates`
enumerates the dash-delimited prefixes from full length down to 3
segments) prefix present in the rate-card table; (4) the hardcoded
fallback card. -/
theorem price_for_precedence (model : String)
    (models_dict : List (String × RateCard))
    (aliases_dict : List (String × String)) :
    (∀ c, models_dict.lookup model = some c →
      price_for model models_dict aliases_dict = c) ∧
    (models_dict.lookup model = none →
      ∀ r c, aliases_dict.lookup model = some r → r ≠ "" →
        models_dict.lookup r = some c →
        price_for model models_dict aliases_dict = c) ∧
    (models_dict.lookup model = none →
      (aliases_dict.lookup model).bind
        (fun r => if r = "" then none else models_dict.lookup r) = none →
      ∀ c, prefix_price model models_dict = some c →
        price_for model models_dict aliases_dict = c) ∧
    (∀ c, prefix_price model models_dict = some c →
      ∃ l₁ cand l₂, prefix_candidates model = l₁ ++ cand :: l₂ ∧
        models_dict.lookup cand = some c ∧
        ∀ x ∈ l₁, models_dict.lookup x = none) ∧
    (models_dict.lookup model = none →
      (aliases_dict.lookup model).bind
        (fun r => if r = "" then none else models_dict.lookup r) = none →
      prefix_price model models_dict = none →
      price_for model models_dict aliases_dict = FALLBACK_PRICING) := by
  refine ⟨?_, ?_, ?_, ?_, ?_⟩
  · intro c hc
    simp [price_for, hc]
  · intro hnone r c har hr hrc
    simp [price_for, hnone, har, hr, hrc]
  · intro hnone halias c hpre
    simp [price_for, hnone, halias, hpre]
  · intro c hpre
    rcases List.findSome?_eq_some_iff.mp hpre with ⟨l₁, a, l₂, heq, hfa, hnone⟩
    exact ⟨l₁, a, l₂, heq, hfa, hnone⟩
  · intro hnone halias hpre
    simp [price_for, hnone, halias, hpre]

/-- C3 (witness): the precedence theorem applied at a concrete model:
an exact entry wins. -/
theorem price_for_precedence_witness :
    price_for "a-b-c" [("a-b-c", RateCard.mk 1 2 none none)] [] =
      RateCard.mk 1 2 none none :=
  (price_for_precedence "a-b-c" [("a-b-c", RateCard.mk 1 2 none none)] []).1
    (RateCard.mk 1 2 none none) rfl

/-! ### Deduplication lemmas for `parse_real_usage` -/

/-- A line failing the retention test leaves the extractor state
unchanged. -/
lemma puStep_skip {s : List (Option String) × List Call} {d : TLine}
    (h : lineKept s.1 d = false) : puStep s d = s := by
  simp [puStep, h]

/-- Processing a line never removes identifiers from `seen_req`. -/
lemma puStep_seen_sub {s : List (Option String) × List Call} (d : TLine) :
    ∀ a ∈ s.1, a ∈ (puStep s d).1 := by
  intro a ha
  unfold puStep
  split
  · exact List.mem_cons_of_mem _ ha
  · exact ha

/-- `seen_req` only grows along the fold. -/
lemma foldl_seen_sub (l : List TLine) :
    ∀ s, ∀ a ∈ s.1, a ∈ (l.foldl puStep s).1 := by
  induction l with
  | nil => intro s a ha; exact ha
  | cons d rest ih =>
    intro s a ha
    exact ih (puStep s d) a (puStep_seen_sub d a ha)

/-- After processing a decodable assistant-usage line, its request
identifier is in `seen_req` (it was either just added, or the line was
skipped exactly because it was already there). -/
lemma puStep_processed_mem {s : List (Option String) × List Call} {d : TLine}
    (hv : d.valid = true) (ht : d.type = "assistant") (hu : d.hasUsage = true) :
    d.requestId ∈ (puStep s d).1 := by
  unfold puStep
  by_cases h : lineKept s.1 d = true
  · rw [if_pos h]
    exact List.mem_cons_self _ _
  · rw [if_neg h]
    simp only [lineKept, hv, ht, hu, Bool.true_and, beq_self_eq_true,
      Bool.not_eq_true', Bool.not_eq_false] at h
    simpa using h

/-- A line whose identifier is already in `seen_req` may be deleted
from the middle of the transcript without changing the extractor's
result. -/
lemma parse_skip_middle (t₁ t₂ : List TLine) (r : TLine)
    (h : lineKept ((t₁.foldl puStep ([], [])).1) r = false) :
    parse_real_usage (t₁ ++ r :: t₂) = parse_real_usage (t₁ ++ t₂) := by
  unfold parse_real_usage retainedCalls
  rw [List.foldl_append, List.foldl_cons, puStep_skip h, ← List.foldl_append]

/-- Core dedup lemma: an assistant-usage line whose request identifier
equals that of an earlier assistant-usage line contributes nothing:
removing it leaves the extractor's whole result unchanged. -/
lemma parse_dup_discarded (t₁ t₂ t₃ : List TLine) (r₀ r : TLine)
    (h₀v : r₀.valid = true) (h₀t : r₀.type = "assistant")
    (h₀u : r₀.hasUsage = true)
    (hv : r.valid = true) (ht : r.type = "assistant") (hu : r.hasUsage = true)
    (hid : r.requestId = r₀.requestId) :
    parse_real_usage (t₁ ++ r₀ :: (t₂ ++ r :: t₃)) =
      parse_real_usage (t₁ ++ r₀ :: (t₂ ++ t₃)) := by
  have hmem : r.requestId ∈ (((t₁ ++ r₀ :: t₂).foldl puStep ([], []))).1 := by
    rw [List.foldl_append, List.foldl_cons, hid]
    exact foldl_seen_sub t₂ _ _ (puStep_processed_mem h₀v h₀t h₀u)
  have hskip : lineKept (((t₁ ++ r₀ :: t₂).foldl puStep ([], []))).1 r = false := by
    simp only [lineKept, hv, ht, hu, Bool.true_and, Bool.and_eq_false_iff,
      Bool.not_eq_true']
    right
    simpa using hmem
  have := parse_skip_middle (t₁ ++ r₀ :: t₂) t₃ r hskip
  simpa using this

/-- Processing the same line twice in a row is the same as processing
it once. -/
lemma puStep_idem (s : List (Option String) × List Call) (r : TLine) :
    puStep (puStep s r) r = puStep s r := by
  by_cases h : lineKept s.1 r = true
  · have hk : lineKept (puStep s r).1 r = false := by
      unfold puStep
      rw [if_pos h]
      simp [lineKept]
    exact puStep_skip hk
  · rw [puStep_skip (Bool.eq_false_iff.mpr h), puStep_skip (Bool.eq_false_iff.mpr h)]

/-- Folding a block of identical lines equals processing the line
once. -/
lemma foldl_replicate_puStep (r : TLine) :
    ∀ (k : ℕ) (s : List (Option String) × List Call),
      (List.replicate k r).foldl puStep (puStep s r) = puStep s r := by
  intro k
  induction k with
  | zero => intro s; rfl
  | succ j ih =>
    intro s
    rw [List.replicate_succ, List.foldl_cons, puStep_idem, ih]

/-- C1: among assistant-turn usage records sharing a request
identifier, only the first in file order contributes: (i) removing a
record whose request identifier equals that of an earlier
assistant-usage record leaves the extractor's entire result — in
particular the four token totals — unchanged; (ii) a transcript with
k ≥ 2 identical copies of a record bearing a request identifier
yields the same result as the transcript with a single copy. -/
theorem parse_real_usage_first_occurrence_only :
    (∀ (t₁ t₂ t₃ : List TLine) (r₀ r : TLine),
      r₀.valid = true → r₀.type = "assistant" → r₀.hasUsage = true →
      r.valid = true → r.type = "assistant" → r.hasUsage = true →
      r.requestId = r₀.requestId →
      parse_real_usage (t₁ ++ r₀ :: (t₂ ++ r :: t₃)) =
        parse_real_usage (t₁ ++ r₀ :: (t₂ ++ t₃))) ∧
    (∀ (t₁ t₂ : List TLine) (r : TLine) (k : ℕ), 2 ≤ k →
      r.valid = true → r.type = "assistant" → r.hasUsage = true →
      (∃ id, r.requestId = some id) →
      parse_real_usage (t₁ ++ List.replicate k r ++ t₂) =
        parse_real_usage (t₁ ++ r :: t₂)) := by
  constructor
  · exact parse_dup_discarded
  · intro t₁ t₂ r k hk _ _ _ _
    obtain ⟨j, rfl⟩ : ∃ j, k = j + 1 := ⟨k - 1, by omega⟩
    unfold parse_real_usage retainedCalls
    simp only [List.foldl_append, List.replicate_succ, List.foldl_cons,
      foldl_replicate_puStep]

/-- C1 (witness): three identical copies of a request-carrying record
total the same as one copy. -/
theorem parse_real_usage_first_occurrence_only_witness :
    parse_real_usage (List.replicate 3 dupLine) = parse_real_usage [dupLine] :=
  parse_real_usage_first_occurrence_only.2 [] [] dupLine 3 (by norm_num)
    rfl rfl rfl ⟨"req-1", rfl⟩

/-- C9: records lacking a request identifier share the single
deduplication key `None`: whenever an assistant-usage record without
identifier already occurred, any later assistant-usage record without
identifier is discarded — removing it changes neither the token sums
nor the context timeline.  (The first such record itself is retained
and does contribute, per the retention test.) -/
theorem parse_real_usage_missing_id_shared_key :
    (∀ (t₁ t₂ t₃ : List TLine) (r₁ r₂ : TLine),
      r₁.valid = true → r₁.type = "assistant" → r₁.hasUsage = true →
      r₁.requestId = none →
      r₂.valid = true → r₂.type = "assistant" → r₂.hasUsage = true →
      r₂.requestId = none →
      parse_real_usage (t₁ ++ r₁ :: (t₂ ++ r₂ :: t₃)) =
        parse_real_usage (t₁ ++ r₁ :: (t₂ ++ t₃))) ∧
    (∀ r : TLine, r.valid = true → r.type = "assistant" → r.hasUsage = true →
      retainedCalls [r] = [mkCall r]) := by
  constructor
  · intro t₁ t₂ t₃ r₁ r₂ h1v h1t h1u h1id h2v h2t h2u h2id
    exact parse_dup_discarded t₁ t₂ t₃ r₁ r₂ h1v h1t h1u h2v h2t h2u
      (by rw [h1id, h2id])
  · intro r hv ht hu
    simp [retainedCalls, puStep, lineKept, hv, ht, hu]

/-- C9 (witness): of two identifier-less records only the first
contributes. -/
theorem parse_real_usage_missing_id_shared_key_witness :
    parse_real_usage [noIdLine1, noIdLine2] = parse_real_usage [noIdLine1] :=
  parse_real_usage_missing_id_shared_key.1 [] [] [] noIdLine1 noIdLine2
    rfl rfl rfl rfl rfl rfl rfl rfl

/-- C7: an unreadable or absent transcript, and likewise a transcript
with zero retained usage records, yield the `None` sentinel from the
extractor, and `analyse` then runs in degraded mode with the
authoritative-data flag false. -/
theorem no_authoritative_data_degraded :
    (∀ lines, retainedCalls lines = [] → parse_real_usage lines = none) ∧
    (∀ (events : List Event) models aliases cap, events ≠ [] →
      (analyse events models aliases cap none).map Analysis.using_real_data =
        some false) ∧
    (∀ (events : List Event) models aliases cap lines, events ≠ [] →
      retainedCalls lines = [] →
      (analyse events models aliases cap (some lines)).map
        Analysis.using_real_data = some false) := by
  refine ⟨?_, ?_, ?_⟩
  · intro lines h
    simp [parse_real_usage, h]
  · intro events models aliases cap hev
    have h : events.isEmpty = false := by simpa [List.isEmpty_iff] using hev
    simp [analyse, h]
  · intro events models aliases cap lines hev hret
    have h : events.isEmpty = false := by simpa [List.isEmpty_iff] using hev
    simp [analyse, h, parse_real_usage, hret]

/-- C7 (witness): a transcript whose only line is not an assistant
record retains nothing, and analysis of a non-empty event log with it
reports the degraded flag. -/
theorem no_authoritative_data_degraded_witness :
    parse_real_usage [nonAsstLine] = none ∧
    (analyse [sample_pre] [] [] 200000 none).map Analysis.using_real_data =
      some false :=
  ⟨no_authoritative_data_degraded.1 _ (by decide),
   no_authoritative_data_degraded.2.1 [sample_pre] [] [] 200000 (by decide)⟩

/-! ### Pairing lemmas -/

/-- A successful `extractMatch` splits the pool at the first element
satisfying the candidate test and removes exactly that element. -/
lemma extractMatch_eq_some (pre : Event) :
    ∀ {pool : List (ℕ × Event)} {x : ℕ × Event} {pool' : List (ℕ × Event)},
      extractMatch pre pool = some (x, pool') →
      ∃ l₁ l₂, pool = l₁ ++ x :: l₂ ∧ pool' = l₁ ++ l₂ ∧
        (∀ y ∈ l₁, matchCond pre y.2 = false) ∧ matchCond pre x.2 = true := by
  intro pool
  induction pool with
  | nil => intro x pool' h; cases h
  | cons a rest ih =>
    intro x pool' h
    by_cases hc : matchCond pre a.2 = true
    · rw [extractMatch, if_pos hc] at h
      obtain ⟨rfl, rfl⟩ := Prod.mk.injEq .. ▸ Option.some.inj h
      exact ⟨[], rest, rfl, rfl, by simp, hc⟩
    · rw [extractMatch, if_neg hc] at h
      cases hrec : extractMatch pre rest with
      | none => rw [hrec] at h; cases h
      | some p =>
        obtain ⟨m, rest'⟩ := p
        rw [hrec] at h
        obtain ⟨rfl, rfl⟩ := Prod.mk.injEq .. ▸ Option.some.inj h
        obtain ⟨l₁, l₂, hpool, hpool', hnone, hcond⟩ := ih hrec
        refine ⟨a :: l₁, l₂, by rw [hpool]; rfl, by rw [hpool']; simp, ?_, hcond⟩
        intro y hy
        rcases List.mem_cons.mp hy with rfl | hy'
        · exact Bool.eq_false_iff.mpr hc
        · exact hnone y hy'

/-- A failed `extractMatch` means no pool element passes the test. -/
lemma extractMatch_eq_none (pre : Event) :
    ∀ {pool : List (ℕ × Event)}, extractMatch pre pool = none →
      ∀ y ∈ pool, matchCond pre y.2 = false := by
  intro pool
  induction pool with
  | nil => intro _ y hy; cases hy
  | cons a rest ih =>
    intro h y hy
    by_cases hc : matchCond pre a.2 = true
    · rw [extractMatch, if_pos hc] at h; cases h
    · rw [extractMatch, if_neg hc] at h
      rcases List.mem_cons.mp hy with rfl | hy'
      · exact Bool.eq_false_iff.mpr hc
      · cases hrec : extractMatch pre rest with
        | none => exact ih hrec y hy'
        | some p => rw [hrec] at h; cases h

/-- Consumed indices come from the pool, and are distinct when the
pool's indices are. -/
lemma pairEvents_pool_spec :
    ∀ (pres : List Event) (pool : List (ℕ × Event)),
      (∀ j ∈ (pairEvents pres pool).1.filterMap Paired.matched_index,
        j ∈ pool.map Prod.fst) ∧
      ((pool.map Prod.fst).Nodup →
        ((pairEvents pres pool).1.filterMap Paired.matched_index).Nodup) := by
  intro pres
  induction pres with
  | nil => intro pool; simp [pairEvents]
  | cons pre rest ih =>
    intro pool
    cases hx : extractMatch pre pool with
    | none =>
      have hpair : pairEvents (pre :: rest) pool =
          (mkPaired pre 0 0 none none :: (pairEvents rest pool).1,
            (pairEvents rest pool).2) := by
        rw [pairEvents, hx]
      rw [hpair]
      simpa [mkPaired] using ih pool
    | some p =>
      obtain ⟨⟨i, m⟩, pool'⟩ := p
      have hpair : pairEvents (pre :: rest) pool =
          (mkPaired pre (m.ts - pre.ts) m.response_tokens m.file_path (some i)
            :: (pairEvents rest pool').1, (pairEvents rest pool').2) := by
        rw [pairEvents, hx]
      obtain ⟨l₁, l₂, hpool, hpool', -, -⟩ := extractMatch_eq_some pre hx
      have hsub : ∀ j ∈ pool'.map Prod.fst, j ∈ pool.map Prod.fst := by
        intro j hj
        rw [hpool', List.map_append] at hj
        rw [hpool]
        rcases List.mem_append.mp hj with h1 | h2
        · simp only [List.map_append, List.map_cons]
          exact List.mem_append.mpr (Or.inl h1)
        · simp only [List.map_append, List.map_cons]
          exact List.mem_append.mpr (Or.inr (List.mem_cons_of_mem _ h2))
      rw [hpair]
      constructor
      · intro j hj
        simp only [mkPaired, List.filterMap_cons] at hj
        rcases List.mem_cons.mp hj with rfl | hj'
        · rw [hpool]
          simp
        · exact hsub j ((ih pool').1 j hj')
      · intro hnd
        have hmid : (i :: (l₁.map Prod.fst ++ l₂.map Prod.fst)).Nodup := by
          have : (l₁.map Prod.fst ++ i :: l₂.map Prod.fst).Nodup := by
            simpa [hpool] using hnd
          simpa using List.nodup_middle.mp this
        have hnd' : (pool'.map Prod.fst).Nodup := by
          rw [hpool', List.map_append]
          exact (List.nodup_cons.mp hmid).2
        have hnotmem : i ∉ pool'.map Prod.fst := by
          rw [hpool', List.map_append]
          exact (List.nodup_cons.mp hmid).1
        simp only [mkPaired, List.filterMap_cons]
        refine List.nodup_cons.mpr ⟨?_, (ih pool').2 hnd'⟩
        intro hmem
        exact hnotmem ((ih pool').1 i hmem)

/-- Per-invocation correspondence between the `pre` events and the
produced `paired` records, relative to the indexed pool. -/
lemma pairEvents_forall₂ (posts : List Event) :
    ∀ (pres : List Event) (pool : List (ℕ × Event)),
      (∀ x ∈ pool, posts[x.1]? = some x.2) →
      List.Forall₂ (fun pre p =>
        p.tool = pre.tool ∧ p.ts = pre.ts ∧ p.input_tokens = pre.input_tokens ∧
        (∀ i ∈ p.matched_index, ∃ m, posts[i]? = some m ∧
          m.tool = pre.tool ∧ pre.ts < m.ts ∧
          p.elapsed_s = m.ts - pre.ts ∧ p.response_tokens = m.response_tokens) ∧
        (p.matched_index = none →
          p.elapsed_s = 0 ∧ p.response_tokens = 0))
        pres (pairEvents pres pool).1 := by
  intro pres
  induction pres with
  | nil => intro pool _; exact List.Forall₂.nil
  | cons pre rest ih =>
    intro pool hpool
    cases hx : extractMatch pre pool with
    | none =>
      have hpair : pairEvents (pre :: rest) pool =
          (mkPaired pre 0 0 none none :: (pairEvents rest pool).1,
            (pairEvents rest pool).2) := by
        rw [pairEvents, hx]
      rw [hpair]
      refine List.Forall₂.cons ?_ (ih pool hpool)
      refine ⟨rfl, rfl, rfl, ?_, fun _ => ⟨rfl, rfl⟩⟩
      intro i hi
      simp [mkPaired] at hi
    | some p =>
      obtain ⟨⟨i, m⟩, pool'⟩ := p
      have hpair : pairEvents (pre :: rest) pool =
          (mkPaired pre (m.ts - pre.ts) m.response_tokens m.file_path (some i)
            :: (pairEvents rest pool').1, (pairEvents rest pool').2) := by
        rw [pairEvents, hx]
      obtain ⟨l₁, l₂, hpl, hpl', -, hcond⟩ := extractMatch_eq_some pre hx
      have hmem : (i, m) ∈ pool := by rw [hpl]; simp
      have hget : posts[i]? = some m := hpool _ hmem
      have hsub : ∀ x ∈ pool', x ∈ pool := by
        intro x hx'
        rw [hpl', List.mem_append] at hx'
        rw [hpl]
        rcases hx' with h1 | h2
        · exact List.mem_append.mpr (Or.inl h1)
        · exact List.mem_append.mpr (Or.inr (List.mem_cons_of_mem _ h2))
      rw [hpair]
      refine List.Forall₂.cons ?_ (ih pool' (fun x hx' => hpool x (hsub x hx')))
      have hc : m.tool = pre.tool ∧ pre.ts < m.ts := by
        simpa [matchCond] using hcond
      refine ⟨rfl, rfl, rfl, ?_, ?_⟩
      · intro j hj
        have hji : i = j := by simpa [mkPaired] using hj
        subst hji
        exact ⟨m, hget, hc.1, hc.2, rfl, rfl⟩
      · intro hnone
        simp [mkPaired] at hnone

/-- C2: the pairing never reuses an event: each `after` event is
consumed by at most one `before` event (the consumed indices are
pairwise distinct), each `before` event is matched to at most one
`after` event, which has the same tool and a strictly later timestamp,
and every unmatched `before` event yields elapsed time 0 with the
empty match (response size 0). -/
theorem pairing_matching_invariants (pres posts : List Event) :
    List.Forall₂ (fun pre p =>
      p.tool = pre.tool ∧ p.ts = pre.ts ∧ p.input_tokens = pre.input_tokens ∧
      (∀ i ∈ p.matched_index, ∃ m, posts[i]? = some m ∧
        m.tool = pre.tool ∧ pre.ts < m.ts ∧
        p.elapsed_s = m.ts - pre.ts ∧ p.response_tokens = m.response_tokens) ∧
      (p.matched_index = none → p.elapsed_s = 0 ∧ p.response_tokens = 0))
      pres (pairEvents pres posts.enum).1 ∧
    ((pairEvents pres posts.enum).1.filterMap Paired.matched_index).Nodup := by
  constructor
  · exact pairEvents_forall₂ posts pres posts.enum
      (fun x hx => List.mem_enum_iff_getElem?.mp hx)
  · refine (pairEvents_pool_spec pres posts.enum).2 ?_
    rw [List.enum_map_fst]
    exact List.nodup_range _

/-- C2 (witness): the invariants at a concrete one-pair session. -/
theorem pairing_matching_invariants_witness :
    ((pairEvents [sample_pre] [sample_post].enum).1.filterMap
      Paired.matched_index).Nodup :=
  (pairing_matching_invariants [sample_pre] [sample_post]).2

/-- C6 (counterexample): with `post` events of tool "A" at timestamps
10 then 5 (in file order) and a `pre` at 0, the pairing consumes the
event at index 0 (timestamp 10, elapsed 10), although the unconsumed
same-tool event at index 1 has the strictly smaller timestamp 5 > 0:
the selection is by file order, not earliest-by-timestamp, so the
claim is false as stated. -/
theorem pairing_not_earliest_by_timestamp_cex :
    (pairEvents [preA] [postA_late, postA_early].enum).1.map
        Paired.matched_index = [some 0] ∧
    (pairEvents [preA] [postA_late, postA_early].enum).1.map
        Paired.elapsed_s = [10] ∧
    postA_early.tool = preA.tool ∧ preA.ts < postA_early.ts ∧
    postA_early.ts < postA_late.ts := by
  refine ⟨?_, ?_, rfl, by norm_num [preA, postA_early], by
    norm_num [postA_early, postA_late]⟩ <;>
  · norm_num [pairEvents, extractMatch, matchCond, mkPaired, preA,
      postA_late, postA_early, List.enum, List.enumFrom]

/-- C6 (amended): for every `before` event processed during pairing,
the `after` event selected is the first in original file order — not
the earliest by timestamp — among the not-yet-consumed `after` events
of the same tool whose timestamp strictly exceeds the `before`
timestamp; the selected event is removed from the pool and the elapsed
time is the timestamp difference. -/
theorem pairing_selects_first_in_file_order :
    (∀ (pre : Event) (pool : List (ℕ × Event)) (i : ℕ) (m : Event)
      (pool' : List (ℕ × Event)),
      extractMatch pre pool = some ((i, m), pool') →
      ∃ l₁ l₂, pool = l₁ ++ (i, m) :: l₂ ∧ pool' = l₁ ++ l₂ ∧
        (∀ y ∈ l₁, ¬(y.2.tool = pre.tool ∧ pre.ts < y.2.ts)) ∧
        m.tool = pre.tool ∧ pre.ts < m.ts) ∧
    (∀ (pre : Event) (pool : List (ℕ × Event)),
      extractMatch pre pool = none →
      ∀ y ∈ pool, ¬(y.2.tool = pre.tool ∧ pre.ts < y.2.ts)) ∧
    (∀ (pre : Event) (rest : List Event) (pool : List (ℕ × Event))
      (i : ℕ) (m : Event) (pool' : List (ℕ × Event)),
      extractMatch pre pool = some ((i, m), pool') →
      pairEvents (pre :: rest) pool =
        (mkPaired pre (m.ts - pre.ts) m.response_tokens m.file_path (some i)
          :: (pairEvents rest pool').1, (pairEvents rest pool').2)) := by
  refine ⟨?_, ?_, ?_⟩
  · intro pre pool i m pool' h
    obtain ⟨l₁, l₂, hpool, hpool', hnone, hcond⟩ := extractMatch_eq_some pre h
    refine ⟨l₁, l₂, hpool, hpool', ?_, by simpa [matchCond] using hcond⟩
    intro y hy
    have := hnone y hy
    simpa [matchCond] using this
  · intro pre pool h y hy
    have := extractMatch_eq_none pre h y hy
    simpa [matchCond] using this
  · intro pre rest pool i m pool' h
    rw [pairEvents, h]

/-- C6 (witness): the amended rule's pairing step at the
counterexample pool: the file-order-first candidate (index 0) is taken
and removed, and elapsed time is the timestamp difference. -/
theorem pairing_selects_first_in_file_order_witness :
    pairEvents [preA] [postA_late, postA_early].enum =
      (mkPaired preA (postA_late.ts - preA.ts) postA_late.response_tokens
        postA_late.file_path (some 0) :: (pairEvents [] [(1, postA_early)]).1,
       (pairEvents [] [(1, postA_early)]).2) :=
  pairing_selects_first_in_file_order.2.2 preA [] [postA_late, postA_early].enum
    0 postA_late [(1, postA_early)] (by
      norm_num [extractMatch, matchCond, preA, postA_late, postA_early,
        List.enum, List.enumFrom])

/-- C5: in authoritative mode the total cost is the sum over the four
token classes of tokens times class rate, divided by 1,000,000, with
the resolved card's cache-creation rate defaulting to 1.25 × input and
cache-read to 0.1 × input when absent. -/
theorem authoritative_total_cost_formula (events : List Event)
    (models : List (String × RateCard)) (aliases : List (String × String))
    (cap : ℕ) (lines : List TLine) (u : Usage)
    (hev : events ≠ []) (hu : parse_real_usage lines = some u) :
    (analyse events models aliases cap (some lines)).map Analysis.total_cost =
      some
        (let pricing :=
          price_for (if u.model = "" then "claude-sonnet-4-6" else u.model)
            models aliases
        ((u.input_tokens : ℚ) * pricing.input
          + (u.output_tokens : ℚ) * pricing.output
          + (u.cache_creation_tokens : ℚ) *
            (pricing.cache_creation.getD (pricing.input * (5 / 4)))
          + (u.cache_read_tokens : ℚ) *
            (pricing.cache_read.getD (pricing.input * (1 / 10)))) / 1000000) := by
  have h : events.isEmpty = false := by simpa [List.isEmpty_iff] using hev
  simp [analyse, h, hu, authoritative_cost]

/-- C5 (witness): the formula evaluated on a one-line transcript with
the fallback card. -/
theorem authoritative_total_cost_formula_witness :
    (analyse [sample_pre] [] [] 200000 (some [dupLine])).map
      Analysis.total_cost =
      some ((7 * 3 + 8 * 15 + 9 * (15 / 4) + 10 * (3 / 10)) / 1000000) := by
  have hu : parse_real_usage [dupLine] = some
      { input_tokens := 7, output_tokens := 8, cache_creation_tokens := 9,
        cache_read_tokens := 10, api_calls := 1, model := "claude-x",
        context_by_turn := [("t0", 26)] } := by
    simp [parse_real_usage, retainedCalls, puStep, lineKept, mkCall, lastModel,
      dupLine]
  have h := authoritative_total_cost_formula [sample_pre] [] [] 200000
    [dupLine] _ (by decide) hu
  rw [h]
  simp +decide only [price_for, prefix_price, prefix_candidates, split_dash,
    join_dash, List.lookup, List.findSome?, List.range', FALLBACK_PRICING]
  norm_num

/-! ### Degraded-mode closed forms -/

/-- Closed form of the degraded loop's accumulated cost: the marginal
costs with `turns_remaining = T - position`, summed. -/
lemma degradedLoop_cost (ip op : ℚ) (cap T : ℕ) :
    ∀ (l : List Paired) (i cum : ℕ),
      (degradedLoop ip op cap T l i cum).2 =
        ((l.enumFrom i).map (fun x =>
          (x.2.response_tokens : ℚ) * ip * ((T - x.1 : ℕ) : ℚ)
            + (x.2.response_tokens : ℚ) * op)).sum := by
  intro l
  induction l with
  | nil => intro i cum; simp [degradedLoop]
  | cons ev rest ih =>
    intro i cum
    simp only [degradedLoop, List.enumFrom_cons, List.map_cons, List.sum_cons]
    rw [ih]

/-- Closed form of the degraded loop's context timeline: entry `j` is
the capped prefix sum of the added sizes. -/
lemma degradedLoop_timeline (ip op : ℚ) (cap T : ℕ) :
    ∀ (l : List Paired) (i cum : ℕ),
      (degradedLoop ip op cap T l i cum).1 =
        (List.range l.length).map (fun j =>
          min (cum + ((l.take (j + 1)).map
            (fun ev => ev.input_tokens + ev.response_tokens)).sum) cap) := by
  intro l
  induction l with
  | nil => intro i cum; simp [degradedLoop]
  | cons ev rest ih =>
    intro i cum
    have h1 : (degradedLoop ip op cap T (ev :: rest) i cum).1 =
        min (cum + (ev.input_tokens + ev.response_tokens)) cap ::
          (degradedLoop ip op cap T rest (i + 1)
            (min (cum + (ev.input_tokens + ev.response_tokens)) cap)).1 := by
      simp [degradedLoop]
    rw [h1, ih]
    rw [List.length_cons, List.range_succ_eq_map, List.map_cons, List.map_map]
    refine congrArg₂ List.cons (by simp) (List.map_congr_left ?_)
    intro j hj
    simp only [Function.comp_apply, Nat.succ_eq_add_one, List.take_succ_cons,
      List.map_cons, List.sum_cons]
    omega

/-- C4: in degraded mode the invocations are processed sorted by
timestamp (a stable permutation of the paired invocations); the total
cost is the sum over positions i of
response × (input rate / 1e6) × (T - i) + response × (output rate / 1e6);
the context timeline holds the running sums of input+response
estimates capped at the context cap; and the peak is the maximum of
that timeline.  In particular the one-Read-pair scenario (before at
t=0 with input estimate 100, after at t=2 with output estimate 50, no
transcript) yields one invocation with elapsed 2 and category "Reading
files", and total cost computed with turns_remaining = 1. -/
theorem degraded_mode_cost_model :
    (∀ (events : List Event) (models : List (String × RateCard))
      (aliases : List (String × String)) (cap : ℕ), events ≠ [] →
      (List.Sorted (fun a b : Paired => a.ts ≤ b.ts) (sortByTs (pairedOf events)) ∧
        (sortByTs (pairedOf events)).Perm (pairedOf events)) ∧
      (analyse events models aliases cap none).map Analysis.total_cost =
        some (((sortByTs (pairedOf events)).enum.map (fun x =>
          (x.2.response_tokens : ℚ) *
            ((price_for (firstEventModel events) models aliases).input / 1000000) *
            (((sortByTs (pairedOf events)).length - x.1 : ℕ) : ℚ)
          + (x.2.response_tokens : ℚ) *
            ((price_for (firstEventModel events) models aliases).output / 1000000))).sum) ∧
      (analyse events models aliases cap none).map Analysis.context_timeline =
        some ((List.range (sortByTs (pairedOf events)).length).map (fun j =>
          min (((sortByTs (pairedOf events)).take (j + 1)).map
            (fun ev => ev.input_tokens + ev.response_tokens)).sum cap)) ∧
      (analyse events models aliases cap none).map Analysis.peak_tokens =
        (analyse events models aliases cap none).map
          (fun A => peakOf A.context_timeline)) ∧
    (∀ (models : List (String × RateCard)) (aliases : List (String × String))
      (cap : ℕ),
      pairedOf [sample_pre, sample_post] =
        [{ tool := "Read", category := "Reading files", elapsed_s := 2,
           input_tokens := 100, response_tokens := 50,
           file_path := some "/tmp/notes.txt", command := none, ts := 0,
           matched_index := some 0 }] ∧
      analyse [sample_pre, sample_post] models aliases cap none = some
        { total_cost :=
            50 * ((price_for "claude-sonnet-4-6" models aliases).input / 1000000) * 1
              + 50 * ((price_for "claude-sonnet-4-6" models aliases).output / 1000000),
          peak_tokens := min 150 cap,
          tool_calls := 1, api_calls := 1,
          context_timeline := [min 150 cap],
          model := "claude-sonnet-4-6", using_real_data := false,
          pricing := price_for "claude-sonnet-4-6" models aliases,
          inp_tok := 0, out_tok := 0, cc_tok := 0, cr_tok := 0 }) := by
  constructor
  · intro events models aliases cap hev
    have hne : events.isEmpty = false := by simpa [List.isEmpty_iff] using hev
    haveI htot : IsTotal Paired (fun a b : Paired => a.ts ≤ b.ts) :=
      ⟨fun a b => le_total a.ts b.ts⟩
    haveI htrans : IsTrans Paired (fun a b : Paired => a.ts ≤ b.ts) :=
      ⟨fun _ _ _ hab hbc => le_trans hab hbc⟩
    refine ⟨⟨List.sorted_insertionSort _ _, List.perm_insertionSort _ _⟩, ?_, ?_, ?_⟩
    · simp only [analyse, hne, Bool.false_eq_true, if_false, Option.none_bind,
        Option.map_some, degraded_result]
      rw [degradedLoop_cost]
      rfl
    · simp only [analyse, hne, Bool.false_eq_true, if_false, Option.none_bind,
        Option.map_some, degraded_result]
      rw [degradedLoop_timeline]
      simp
    · simp only [analyse, hne, Bool.false_eq_true, if_false, Option.none_bind,
        Option.map_some]
      rfl
  · intro models aliases cap
    have hpair : pairedOf [sample_pre, sample_post] =
        [{ tool := "Read", category := "Reading files", elapsed_s := 2,
           input_tokens := 100, response_tokens := 50,
           file_path := some "/tmp/notes.txt", command := none, ts := 0,
           matched_index := some 0 }] := by
      simp [pairedOf, pairEvents, extractMatch, matchCond, sample_pre,
        sample_post, mkPaired, category_for, orTruthy, TOOL_CATEGORIES,
        startsWith, List.enum, List.enumFrom]
    refine ⟨hpair, ?_⟩
    simp only [analyse, List.isEmpty_cons, Bool.false_eq_true, if_false,
      Option.none_bind, hpair]
    simp [firstEventModel, sample_pre, sample_post, sortByTs, degraded_result,
      degradedLoop, List.insertionSort, List.orderedInsert, peakOf]

/-- C4 (witness): the degraded closed form applied to a concrete
one-event session: peak equals the maximum of the timeline. -/
theorem degraded_mode_cost_model_witness :
    (analyse [sample_pre] [] [] 200000 none).map Analysis.peak_tokens =
      (analyse [sample_pre] [] [] 200000 none).map
        (fun A => peakOf A.context_timeline) :=
  (degraded_mode_cost_model.1 [sample_pre] [] [] 200000 (by decide)).2.2.2

/-! ### Non-negativity and monotonicity of cost -/

/-- A successful association-list lookup pinpoints a binding of the
list. -/
lemma lookup_mem {β : Type} {l : List (String × β)} {k : String} {v : β}
    (h : l.lookup k = some v) : (k, v) ∈ l := by
  rcases List.lookup_eq_some_iff.mp h with ⟨l₁, l₂, rfl, -⟩
  simp

/-- The hardcoded fallback card is non-negative. -/
lemma fallback_nonneg : NonnegCard FALLBACK_PRICING := by
  refine ⟨by norm_num [FALLBACK_PRICING], by norm_num [FALLBACK_PRICING], ?_, ?_⟩ <;>
  · intro x hx
    simp [FALLBACK_PRICING, Option.mem_def] at hx
    subst hx
    norm_num

/-- `price_for` returns the fallback card or a card of the table. -/
lemma price_for_mem_or_fallback (model : String)
    (models_dict : List (String × RateCard))
    (aliases_dict : List (String × String)) :
    price_for model models_dict aliases_dict = FALLBACK_PRICING ∨
      ∃ k, (k, price_for model models_dict aliases_dict) ∈ models_dict := by
  unfold price_for
  split
  · next c heq => exact Or.inr ⟨model, lookup_mem heq⟩
  · split
    · next c heq =>
      rcases Option.bind_eq_some.mp heq with ⟨r, har, hif⟩
      by_cases hr : r = ""
      · rw [if_pos hr] at hif; cases hif
      · rw [if_neg hr] at hif
        exact Or.inr ⟨r, lookup_mem hif⟩
    · split
      · next c heq =>
        unfold prefix_price at heq
        rcases List.findSome?_eq_some_iff.mp heq with ⟨l₁, cand, l₂, -, hfa, -⟩
        exact Or.inr ⟨cand, lookup_mem hfa⟩
      · exact Or.inl rfl

/-- The resolved card is non-negative whenever the configured table
is. -/
lemma price_for_nonneg (model : String)
    (models_dict : List (String × RateCard))
    (aliases_dict : List (String × String))
    (h : ∀ p ∈ models_dict, NonnegCard p.2) :
    NonnegCard (price_for model models_dict aliases_dict) := by
  rcases price_for_mem_or_fallback model models_dict aliases_dict with
    heq | ⟨k, hmem⟩
  · rw [heq]; exact fallback_nonneg
  · exact h _ hmem

/-- The two resolved cache rates (with their derived defaults) are
non-negative for a non-negative card. -/
lemma cache_rates_nonneg {p : RateCard} (h : NonnegCard p) :
    0 ≤ p.cache_creation.getD (p.input * (5 / 4)) ∧
      0 ≤ p.cache_read.getD (p.input * (1 / 10)) := by
  obtain ⟨hi, _, hcc, hcr⟩ := h
  constructor
  · cases hp : p.cache_creation with
    | none => simp only [Option.getD_none]; exact mul_nonneg hi (by norm_num)
    | some x =>
      simp only [Option.getD_some]
      exact hcc x (by simp [hp, Option.mem_def])
  · cases hp : p.cache_read with
    | none => simp only [Option.getD_none]; exact mul_nonneg hi (by norm_num)
    | some x =>
      simp only [Option.getD_some]
      exact hcr x (by simp [hp, Option.mem_def])

/-- Authoritative-mode cost is non-negative. -/
lemma authoritative_cost_nonneg (u : Usage) {p : RateCard}
    (h : NonnegCard p) : 0 ≤ authoritative_cost u p := by
  obtain ⟨hcc, hcr⟩ := cache_rates_nonneg h
  obtain ⟨hi, ho, -, -⟩ := h
  unfold authoritative_cost
  apply div_nonneg _ (by norm_num)
  exact add_nonneg
    (add_nonneg
      (add_nonneg (mul_nonneg (Nat.cast_nonneg _) hi)
        (mul_nonneg (Nat.cast_nonneg _) ho))
      (mul_nonneg (Nat.cast_nonneg _) hcc))
    (mul_nonneg (Nat.cast_nonneg _) hcr)

/-- Authoritative-mode cost is monotone in each token class. -/
lemma authoritative_cost_mono (u u' : Usage) {p : RateCard}
    (h : NonnegCard p)
    (h1 : u.input_tokens ≤ u'.input_tokens)
    (h2 : u.output_tokens ≤ u'.output_tokens)
    (h3 : u.cache_creation_tokens ≤ u'.cache_creation_tokens)
    (h4 : u.cache_read_tokens ≤ u'.cache_read_tokens) :
    authoritative_cost u p ≤ authoritative_cost u' p := by
  obtain ⟨hcc, hcr⟩ := cache_rates_nonneg h
  obtain ⟨hi, ho, -, -⟩ := h
  unfold authoritative_cost
  gcongr

/-- Degraded-mode accumulated cost is non-negative for non-negative
per-token prices. -/
lemma degradedLoop_cost_nonneg (ip op : ℚ) (cap T : ℕ)
    (hip : 0 ≤ ip) (hop : 0 ≤ op) :
    ∀ (l : List Paired) (i cum : ℕ),
      0 ≤ (degradedLoop ip op cap T l i cum).2 := by
  intro l
  induction l with
  | nil => intro i cum; simp [degradedLoop]
  | cons ev rest ih =>
    intro i cum
    have h1 : (degradedLoop ip op cap T (ev :: rest) i cum).2 =
        ((ev.response_tokens : ℚ) * ip * ((T - i : ℕ) : ℚ)
          + (ev.response_tokens : ℚ) * op)
        + (degradedLoop ip op cap T rest (i + 1)
            (min (cum + (ev.input_tokens + ev.response_tokens)) cap)).2 := by
      simp [degradedLoop]
    rw [h1]
    exact add_nonneg
      (add_nonneg
        (mul_nonneg (mul_nonneg (Nat.cast_nonneg _) hip) (Nat.cast_nonneg _))
        (mul_nonneg (Nat.cast_nonneg _) hop))
      (ih _ _)

/-- Stability congruence for `orderedInsert` over `RespLe`-related
lists: the comparisons read only the (equal) timestamps, so the
insertion points coincide. -/
lemma orderedInsert_respLe {a b : Paired} (hab : RespLe a b) :
    ∀ {l l' : List Paired}, List.Forall₂ RespLe l l' →
      List.Forall₂ RespLe
        (List.orderedInsert (fun x y : Paired => x.ts ≤ y.ts) a l)
        (List.orderedInsert (fun x y : Paired => x.ts ≤ y.ts) b l') := by
  intro l l' h
  induction h with
  | nil => exact List.Forall₂.cons hab List.Forall₂.nil
  | @cons x y xs ys hxy hrest ih =>
    by_cases hc : a.ts ≤ x.ts
    · have hc' : b.ts ≤ y.ts := by rw [← hab.1, ← hxy.1]; exact hc
      simp only [List.orderedInsert, if_pos hc, if_pos hc']
      exact List.Forall₂.cons hab (List.Forall₂.cons hxy hrest)
    · have hc' : ¬b.ts ≤ y.ts := by rw [← hab.1, ← hxy.1]; exact hc
      simp only [List.orderedInsert, if_neg hc, if_neg hc']
      exact List.Forall₂.cons hxy ih

/-- The stable sort preserves `RespLe` correspondence pointwise. -/
lemma sortByTs_respLe : ∀ {l l' : List Paired},
    List.Forall₂ RespLe l l' →
      List.Forall₂ RespLe (sortByTs l) (sortByTs l') := by
  intro l l' h
  induction h with
  | nil => exact List.Forall₂.nil
  | @cons x y xs ys hxy hrest ih =>
    simpa only [sortByTs, List.insertionSort] using
      orderedInsert_respLe hxy (by simpa only [sortByTs] using ih)

/-- Degraded-mode accumulated cost is monotone under pointwise
`RespLe` (it never reads the running context counter). -/
lemma degradedLoop_cost_mono (ip op : ℚ) (cap T : ℕ)
    (hip : 0 ≤ ip) (hop : 0 ≤ op) :
    ∀ {l l' : List Paired}, List.Forall₂ RespLe l l' →
      ∀ (i cum cum' : ℕ),
        (degradedLoop ip op cap T l i cum).2 ≤
          (degradedLoop ip op cap T l' i cum').2 := by
  intro l l' h
  induction h with
  | nil => intro i cum cum'; simp [degradedLoop]
  | @cons x y xs ys hxy hrest ih =>
    intro i cum cum'
    have h1 : (degradedLoop ip op cap T (x :: xs) i cum).2 =
        ((x.response_tokens : ℚ) * ip * ((T - i : ℕ) : ℚ)
          + (x.response_tokens : ℚ) * op)
        + (degradedLoop ip op cap T xs (i + 1)
            (min (cum + (x.input_tokens + x.response_tokens)) cap)).2 := by
      simp [degradedLoop]
    have h2 : (degradedLoop ip op cap T (y :: ys) i cum').2 =
        ((y.response_tokens : ℚ) * ip * ((T - i : ℕ) : ℚ)
          + (y.response_tokens : ℚ) * op)
        + (degradedLoop ip op cap T ys (i + 1)
            (min (cum' + (y.input_tokens + y.response_tokens)) cap)).2 := by
      simp [degradedLoop]
    rw [h1, h2]
    have hle : (x.response_tokens : ℚ) ≤ (y.response_tokens : ℚ) :=
      Nat.cast_le.mpr hxy.2.2
    refine add_le_add (add_le_add ?_ ?_) (ih _ _ _)
    · exact mul_le_mul_of_nonneg_right
        (mul_le_mul_of_nonneg_right hle hip) (Nat.cast_nonneg _)
    · exact mul_le_mul_of_nonneg_right hle hop

/-- Bumping one invocation's response estimate is a pointwise `RespLe`
step. -/
lemma bumpResponse_forall₂ : ∀ (l : List Paired) (i δ : ℕ),
    List.Forall₂ RespLe l (bumpResponse l i δ) := by
  intro l
  induction l with
  | nil => intro i δ; exact List.Forall₂.nil
  | cons p rest ih =>
    intro i δ
    cases i with
    | zero =>
      exact List.Forall₂.cons ⟨rfl, rfl, Nat.le_add_right _ _⟩
        (List.forall₂_same.mpr (fun x _ => ⟨rfl, rfl, le_refl _⟩))
    | succ j => exact List.Forall₂.cons ⟨rfl, rfl, le_refl _⟩ (ih j δ)

/-- C8: with non-negative configured rates, the total cost computed by
`analyse` is non-negative in both modes, authoritative-mode cost is
monotone in each of the four token counts, and degraded-mode cost
never decreases when any one invocation's estimated response size is
increased with everything else held fixed. -/
theorem cost_nonneg_and_monotone :
    (∀ (events : List Event) (models : List (String × RateCard))
      (aliases : List (String × String)) (cap : ℕ)
      (transcript : Option (List TLine)) (A : Analysis),
      (∀ p ∈ models, NonnegCard p.2) →
      analyse events models aliases cap transcript = some A →
      0 ≤ A.total_cost) ∧
    (∀ (u u' : Usage) (p : RateCard), NonnegCard p →
      u.input_tokens ≤ u'.input_tokens →
      u.output_tokens ≤ u'.output_tokens →
      u.cache_creation_tokens ≤ u'.cache_creation_tokens →
      u.cache_read_tokens ≤ u'.cache_read_tokens →
      authoritative_cost u p ≤ authoritative_cost u' p) ∧
    (∀ (l : List Paired) (i δ : ℕ) (p : RateCard) (cap : ℕ), NonnegCard p →
      (degraded_result l p cap).2 ≤
        (degraded_result (bumpResponse l i δ) p cap).2) := by
  refine ⟨?_, ?_, ?_⟩
  · intro events models aliases cap transcript A hmodels hA
    unfold analyse at hA
    by_cases hne : events.isEmpty
    · rw [if_pos hne] at hA; cases hA
    · rw [if_neg hne] at hA
      cases hu : transcript.bind parse_real_usage with
      | some u =>
        rw [hu] at hA
        have hp := price_for_nonneg
          (if u.model = "" then "claude-sonnet-4-6" else u.model)
          models aliases hmodels
        rw [← Option.some.inj hA]
        exact authoritative_cost_nonneg u hp
      | none =>
        rw [hu] at hA
        have hp := price_for_nonneg (firstEventModel events) models aliases
          hmodels
        rw [← Option.some.inj hA]
        unfold degraded_result
        exact degradedLoop_cost_nonneg _ _ _ _
          (div_nonneg hp.1 (by norm_num))
          (div_nonneg hp.2.1 (by norm_num)) _ _ _
  · intro u u' p hp h1 h2 h3 h4
    exact authoritative_cost_mono u u' hp h1 h2 h3 h4
  · intro l i δ p cap hp
    have hF : List.Forall₂ RespLe (sortByTs l)
        (sortByTs (bumpResponse l i δ)) :=
      sortByTs_respLe (bumpResponse_forall₂ l i δ)
    have hlen : (sortByTs (bumpResponse l i δ)).length =
        (sortByTs l).length := (List.Forall₂.length_eq hF).symm
    have e1 : (degraded_result l p cap).2 =
        (degradedLoop (p.input / 1000000) (p.output / 1000000) cap
          (sortByTs l).length (sortByTs l) 0 0).2 := rfl
    have e2 : (degraded_result (bumpResponse l i δ) p cap).2 =
        (degradedLoop (p.input / 1000000) (p.output / 1000000) cap
          (sortByTs (bumpResponse l i δ)).length
          (sortByTs (bumpResponse l i δ)) 0 0).2 := rfl
    rw [e1, e2, hlen]
    exact degradedLoop_cost_mono _ _ _ _
      (div_nonneg hp.1 (by norm_num))
      (div_nonneg hp.2.1 (by norm_num)) hF 0 0 0

/-- C8 (witness): monotonicity at a concrete pair of usage summaries
under the fallback card. -/
theorem cost_nonneg_and_monotone_witness :
    authoritative_cost
      { input_tokens := 1, output_tokens := 2, cache_creation_tokens := 3,
        cache_read_tokens := 4, api_calls := 1, model := "m",
        context_by_turn := [] } FALLBACK_PRICING ≤
    authoritative_cost
      { input_tokens := 5, output_tokens := 2, cache_creation_tokens := 3,
        cache_read_tokens := 4, api_calls := 1, model := "m",
        context_by_turn := [] } FALLBACK_PRICING :=
  cost_nonneg_and_monotone.2.1 _ _ _ fallback_nonneg (by norm_num)
    (by norm_num) (by norm_num) (by norm_num)


end CostTracker
